import Mathlib

/-!
Verification of the tree/fold framework, printer and diagnostics helpers of a
small compiler written in TypeScript.  The TypeScript sources (`error.ts`,
`ast.ts`, `printer.ts`) are shallowly embedded below: each TypeScript function
becomes a Lean function of the same name (where Lean permits the name), JS
objects become structures, tagged unions become inductives, optional fields
become `Option`, numbers in index positions become `Nat`, and functions that
throw become `Except String`.
-/

set_option linter.unusedVariables false

/-! ## Embedding of error.ts -/

/-- A source span, from `error.ts` (`Span`).  The source field `end` keeps its
name via French quotes since `end` is a Lean keyword. -/
structure Span where
  start : Nat
  «end» : Nat
deriving DecidableEq, Repr

/-- `DUMMY_SPAN` from error.ts. -/
def DUMMY_SPAN : Span := ⟨0, 0⟩

/-- Helper for the embedding of `lines` (error.ts): the imperative loop mutates
the last element of the array in place (`lines[lines.length - 1].end++`); this
function performs that update on a functional list. -/
def bumpLast : List Span → List Span
  | [] => []
  | [s] => [⟨s.start, s.«end» + 1⟩]
  | s :: rest => s :: bumpLast rest

/-- The loop of `lines` (error.ts, lines 78-90): iterate over the characters of
the input with index `i`; a newline pushes a fresh empty span starting after the
newline, any other character extends the last span by one. -/
def linesGo : List Char → Nat → List Span → List Span
  | [], _, acc => acc
  | c :: cs, i, acc =>
    if c = '\n' then linesGo cs (i + 1) (acc ++ [⟨i + 1, i + 1⟩])
    else linesGo cs (i + 1) (bumpLast acc)

/-- `lines` from error.ts: split an input string into one span per source line,
starting from the accumulator `[{start: 0, end: 0}]`. -/
def lines (input : String) : List Span :=
  linesGo input.data 0 [⟨0, 0⟩]

/-! ## Embedding of ast.ts -/

/-- `BinaryKind` (ast.ts): the twelve binary operator tokens.  The constructor
names stand for the string tokens, recovered by `BinaryKind.str`. -/
inductive BinaryKind where
  | add | sub | mul | div | and | or | lt | gt | eq | le | ge | ne
deriving DecidableEq, Repr

/-- The operator token denoted by a `BinaryKind` (the string value that the
TypeScript union carries directly). -/
def BinaryKind.str : BinaryKind → String
  | .add => "+"
  | .sub => "-"
  | .mul => "*"
  | .div => "/"
  | .and => "&"
  | .or => "|"
  | .lt => "<"
  | .gt => ">"
  | .eq => "=="
  | .le => "<="
  | .ge => ">="
  | .ne => "!="

/-- `COMPARISON_KINDS` (ast.ts), in source order `">", "<", "==", "<=", ">=", "!="`. -/
def COMPARISON_KINDS : List BinaryKind := [.gt, .lt, .eq, .le, .ge, .ne]

/-- `EQUALITY_KINDS` (ast.ts). -/
def EQUALITY_KINDS : List BinaryKind := [.eq, .ne]

/-- `LOGICAL_KINDS` (ast.ts). -/
def LOGICAL_KINDS : List BinaryKind := [.and, .or]

/-- `ARITH_TERM_KINDS` (ast.ts). -/
def ARITH_TERM_KINDS : List BinaryKind := [.add, .sub]

/-- `ARITH_FACTOR_KINDS` (ast.ts). -/
def ARITH_FACTOR_KINDS : List BinaryKind := [.mul, .div]

/-- `BINARY_KIND_PREC_CLASS` (ast.ts): the `Map` literal, kept as its
association list in source order. -/
def BINARY_KIND_PREC_CLASS : List (BinaryKind × Nat) :=
  [(.add, 0), (.sub, 0), (.mul, 0), (.div, 0),
   (.and, 1), (.or, 2),
   (.lt, 3), (.gt, 4), (.eq, 5), (.le, 6), (.ge, 7), (.ne, 8)]

/-- `binaryExprPrecedenceClass` (ast.ts).  The source reads
`const cls = BINARY_KIND_PREC_CLASS.get(k); if (!cls) throw ...; return cls`.
In JavaScript `!cls` is true both when `cls` is `undefined` (key not present)
and when `cls` is the number `0`, so the throw branch is taken in both cases;
the embedding returns `Except.error` exactly on those. -/
def binaryExprPrecedenceClass (k : BinaryKind) : Except String Nat :=
  match List.lookup k BINARY_KIND_PREC_CLASS with
  | none => Except.error ("Invalid binary kind: " ++ k.str)
  | some cls =>
    if cls = 0 then Except.error ("Invalid binary kind: " ++ k.str)
    else Except.ok cls

/-- `UnaryKind` (ast.ts): `"!"` and `"-"`. -/
inductive UnaryKind where
  | not | neg
deriving DecidableEq, Repr

/-- The token string of a `UnaryKind`. -/
def UnaryKind.str : UnaryKind → String
  | .not => "!"
  | .neg => "-"

/-- `UNARY_KINDS` (ast.ts). -/
def UNARY_KINDS : List UnaryKind := [.not, .neg]

/-- `Resolution` (ast.ts): what an identifier refers to after name resolution.
`local` carries the De-Bruijn-style index counted from the innermost enclosing
binding. -/
inductive Resolution where
  | «local» (index : Nat)
  | item (index : Nat)
  | builtin (name : String)
deriving DecidableEq, Repr

/-- `Identifier` (ast.ts): a name with a span and an optional resolution. -/
structure Identifier where
  name : String
  span : Span
  res : Option Resolution
deriving DecidableEq, Repr

/-- `Ty` (ast.ts): semantic types.  `TyUnit` in the source is not a separate
variant but the type alias for a tuple with no elements. -/
inductive Ty where
  | string
  | int
  | bool
  | list (elem : Ty)
  | tuple (elems : List Ty)
  | fn (params : List Ty) (returnTy : Ty)
  | var (index : Nat)

/-- `tyIsUnit` (ast.ts): `ty.kind === "tuple" && ty.elems.length === 0`. -/
def tyIsUnit : Ty → Bool
  | .tuple elems => elems.length == 0
  | _ => false

/-- `Type` (ast.ts): written/syntactic types.  Renamed `Typ` because `Type` is
a Lean keyword.  Each node carries its span and the optional semantic type
annotation `ty` added by the checker. -/
inductive Typ where
  | ident (value : Identifier) (span : Span) (ty : Option Ty)
  | list (elem : Typ) (span : Span) (ty : Option Ty)
  | tuple (elems : List Typ) (span : Span) (ty : Option Ty)

/-- `Literal` (ast.ts): string or integer constants. -/
inductive Literal where
  | str (value : String)
  | int (value : Int)
deriving DecidableEq, Repr

/-- `Expr` (ast.ts): `ExprKind & { span; ty? }`.  Every constructor carries the
node's span and optional semantic type annotation.  The constructors `let` and
`if` keep the source kind names via French quotes. -/
inductive Expr where
  | empty (span : Span) (ty : Option Ty)
  | «let» (name : String) (type : Option Typ) (rhs : Expr) (after : Expr)
      (span : Span) (ty : Option Ty)
  | block (exprs : List Expr) (span : Span) (ty : Option Ty)
  | literal (value : Literal) (span : Span) (ty : Option Ty)
  | ident (value : Identifier) (span : Span) (ty : Option Ty)
  | binary (binaryKind : BinaryKind) (lhs : Expr) (rhs : Expr)
      (span : Span) (ty : Option Ty)
  | unary (unaryKind : UnaryKind) (rhs : Expr) (span : Span) (ty : Option Ty)
  | call (lhs : Expr) (args : List Expr) (span : Span) (ty : Option Ty)
  | «if» (cond : Expr) (thenBranch : Expr) (elseBranch : Option Expr)
      (span : Span) (ty : Option Ty)

/-- `FunctionArg` (ast.ts). -/
structure FunctionArg where
  name : String
  type : Typ
  span : Span

/-- `FunctionDef` (ast.ts). -/
structure FunctionDef where
  name : String
  args : List FunctionArg
  body : Expr
  returnType : Option Typ

/-- `Item` (ast.ts): `ItemKind & { span; id }`.  `ItemKind` has the single
variant `function`, so the item is a structure holding its `FunctionDef`. -/
structure Item where
  node : FunctionDef
  span : Span
  id : Nat

/-- `Ast` (ast.ts): a program is the list of its items. -/
abbrev Ast := List Item

/-- `Folder` (ast.ts): one overridable handler per node category. -/
structure Folder where
  item : Item → Item
  expr : Expr → Expr
  ident : Identifier → Identifier
  type : Typ → Typ

/-- `fold_ast` (ast.ts): apply the folder's item handler to every item. -/
def fold_ast (ast : Ast) (folder : Folder) : Ast :=
  ast.map fun item => folder.item item

/-- `superFoldItem` (ast.ts): the structural default for items; rebuilds the
function item, folding argument types, body and return type, and keeping name,
span and id. -/
def superFoldItem (item : Item) (folder : Folder) : Item :=
  let args := item.node.args.map fun a =>
    FunctionArg.mk a.name (folder.type a.type) a.span
  Item.mk
    (FunctionDef.mk item.node.name args (folder.expr item.node.body)
      (item.node.returnType.map folder.type))
    item.span
    item.id

/-- `superFoldExpr` (ast.ts): the structural default for expressions.  Each
case rebuilds a node of the same kind with the same span, scalar fields
(names, literal values, operator kinds) copied, and children replaced by the
folder's results.  The reconstructed object literals in the source carry no
`ty` field, so the rebuilt node's annotation is `none`. -/
def superFoldExpr (expr : Expr) (folder : Folder) : Expr :=
  match expr with
  | .empty span _ => .empty span none
  | .«let» name type rhs after span _ =>
    .«let» name (type.map folder.type) (folder.expr rhs) (folder.expr after)
      span none
  | .block exprs span _ => .block (exprs.map folder.expr) span none
  | .literal value span _ => .literal value span none
  | .ident value span _ => .ident (folder.ident value) span none
  | .binary binaryKind lhs rhs span _ =>
    .binary binaryKind (folder.expr lhs) (folder.expr rhs) span none
  | .unary unaryKind rhs span _ => .unary unaryKind (folder.expr rhs) span none
  | .call lhs args span _ =>
    .call (folder.expr lhs) (args.map folder.expr) span none
  | .«if» cond thenBranch elseBranch span _ =>
    .«if» (folder.expr cond) (folder.expr thenBranch)
      (elseBranch.map folder.expr) span none

/-- `superFoldType` (ast.ts): the structural default for written types; the
rebuilt object literals likewise carry no `ty` field. -/
def superFoldType (type : Typ) (folder : Folder) : Typ :=
  match type with
  | .ident value span _ => .ident (folder.ident value) span none
  | .list elem span _ => .list (folder.type elem) span none
  | .tuple elems span _ => .tuple (elems.map folder.type) span none

mutual
/-- The type handler of `DEFAULT_FOLDER` (ast.ts), unfolded into a recursive
function: in the source `DEFAULT_FOLDER.type(type)` is `superFoldType(type,
this)`, a fixpoint through the folder object.  `defaultFoldTypeList` plays the
role of `elems.map(...)` on the recursive call. -/
def defaultFoldType : Typ → Typ
  | .ident value span _ => .ident value span none
  | .list elem span _ => .list (defaultFoldType elem) span none
  | .tuple elems span _ => .tuple (defaultFoldTypeList elems) span none
def defaultFoldTypeList : List Typ → List Typ
  | [] => []
  | t :: ts => defaultFoldType t :: defaultFoldTypeList ts
end

mutual
/-- The expr handler of `DEFAULT_FOLDER` (ast.ts), unfolded into a recursive
function: `DEFAULT_FOLDER.expr(expr)` is `superFoldExpr(expr, this)` with the
identifier handler the identity.  The list and option helpers below play the
role of `map` on the recursive calls. -/
def defaultFoldExpr : Expr → Expr
  | .empty span _ => .empty span none
  | .«let» name type rhs after span _ =>
    .«let» name (type.map defaultFoldType) (defaultFoldExpr rhs)
      (defaultFoldExpr after) span none
  | .block exprs span _ => .block (defaultFoldExprList exprs) span none
  | .literal value span _ => .literal value span none
  | .ident value span _ => .ident value span none
  | .binary binaryKind lhs rhs span _ =>
    .binary binaryKind (defaultFoldExpr lhs) (defaultFoldExpr rhs) span none
  | .unary unaryKind rhs span _ =>
    .unary unaryKind (defaultFoldExpr rhs) span none
  | .call lhs args span _ =>
    .call (defaultFoldExpr lhs) (defaultFoldExprList args) span none
  | .«if» cond thenBranch elseBranch span _ =>
    .«if» (defaultFoldExpr cond) (defaultFoldExpr thenBranch)
      (defaultFoldExprOpt elseBranch) span none
def defaultFoldExprList : List Expr → List Expr
  | [] => []
  | e :: es => defaultFoldExpr e :: defaultFoldExprList es
def defaultFoldExprOpt : Option Expr → Option Expr
  | none => none
  | some e => some (defaultFoldExpr e)
end

/-- The item handler of `DEFAULT_FOLDER` (ast.ts): `superFoldItem(item, this)`
at the fixpoint. -/
def defaultFoldItem (item : Item) : Item :=
  Item.mk
    (FunctionDef.mk item.node.name
      (item.node.args.map fun a =>
        FunctionArg.mk a.name (defaultFoldType a.type) a.span)
      (defaultFoldExpr item.node.body)
      (item.node.returnType.map defaultFoldType))
    item.span
    item.id

/-- `DEFAULT_FOLDER` (ast.ts): item, expr and type handlers are the structural
defaults at the fixpoint, the ident handler is the identity. -/
def DEFAULT_FOLDER : Folder :=
  Folder.mk defaultFoldItem defaultFoldExpr (fun ident => ident) defaultFoldType

theorem defaultFoldTypeList_eq_map (ts : List Typ) :
    defaultFoldTypeList ts = ts.map defaultFoldType := by
  induction ts with
  | nil => rfl
  | cons t ts ih => simp [defaultFoldTypeList, ih]

theorem defaultFoldExprList_eq_map (es : List Expr) :
    defaultFoldExprList es = es.map defaultFoldExpr := by
  induction es with
  | nil => rfl
  | cons e es ih => simp [defaultFoldExprList, ih]

theorem defaultFoldExprOpt_eq_map (e : Option Expr) :
    defaultFoldExprOpt e = e.map defaultFoldExpr := by
  cases e <;> rfl

/-- Fixpoint equation tying the unfolded type handler back to the source text
of `DEFAULT_FOLDER`: `DEFAULT_FOLDER.type(type) = superFoldType(type, DEFAULT_FOLDER)`. -/
theorem DEFAULT_FOLDER_type_eq (t : Typ) :
    DEFAULT_FOLDER.type t = superFoldType t DEFAULT_FOLDER := by
  cases t <;>
    simp [DEFAULT_FOLDER, defaultFoldType, superFoldType, defaultFoldTypeList_eq_map]

/-- Fixpoint equation tying the unfolded expr handler back to the source text
of `DEFAULT_FOLDER`: `DEFAULT_FOLDER.expr(expr) = superFoldExpr(expr, DEFAULT_FOLDER)`. -/
theorem DEFAULT_FOLDER_expr_eq (e : Expr) :
    DEFAULT_FOLDER.expr e = superFoldExpr e DEFAULT_FOLDER := by
  cases e <;>
    simp [DEFAULT_FOLDER, defaultFoldExpr, superFoldExpr,
      defaultFoldExprList_eq_map, defaultFoldExprOpt_eq_map]

/-- Fixpoint equation tying the unfolded item handler back to the source text
of `DEFAULT_FOLDER`: `DEFAULT_FOLDER.item(item) = superFoldItem(item, DEFAULT_FOLDER)`. -/
theorem DEFAULT_FOLDER_item_eq (it : Item) :
    DEFAULT_FOLDER.item it = superFoldItem it DEFAULT_FOLDER := by
  simp [DEFAULT_FOLDER, defaultFoldItem, superFoldItem]

/-! ## Embedding of printer.ts -/

/-- JavaScript `Array.prototype.join(sep)` on a list of strings: empty list
gives `""`, a single element gives that element, otherwise elements separated
by `sep`. -/
def joinSep (sep : String) : List String → String
  | [] => ""
  | [s] => s
  | s :: ss => s ++ sep ++ joinSep sep ss

/-- JavaScript `String.prototype.repeat`. -/
def strRepeat (s : String) : Nat → String
  | 0 => ""
  | n + 1 => s ++ strRepeat s n

/-- `ind` (printer.ts): `"  ".repeat(indent * 2)`. -/
def ind (indent : Nat) : String := strRepeat "  " (indent * 2)

/-- `linebreak` (printer.ts). -/
def linebreak (indent : Nat) : String := "\n" ++ ind indent

/-- `printIdent` (printer.ts): the name followed by the resolution suffix
rendered by the inner `printRes`, or by nothing when no resolution is
attached. -/
def printIdent (ident : Identifier) : String :=
  let res := match ident.res with
    | some (.«local» index) => "#" ++ toString index
    | some (.item index) => "#G" ++ toString index
    | some (.builtin _) => "#B"
    | none => ""
  ident.name ++ res

mutual
/-- `printTy` (printer.ts): render a semantic type. -/
def printTy : Ty → String
  | .string => "String"
  | .int => "Int"
  | .bool => "Bool"
  | .list elem => "[" ++ printTy elem ++ "]"
  | .tuple elems => "(" ++ joinSep ", " (printTyMapped elems) ++ ")"
  | .fn params returnTy =>
    let ret := if tyIsUnit returnTy then "" else ": " ++ printTy returnTy
    "fn(" ++ joinSep ", " (printTyMapped params) ++ ")" ++ ret
  | .var index => "?" ++ toString index
/-- `tys.map(printTy)`, as a mutually recursive helper. -/
def printTyMapped : List Ty → List String
  | [] => []
  | t :: ts => printTy t :: printTyMapped ts
end

mutual
/-- `printType` (printer.ts): render a written type. -/
def printType : Typ → String
  | .ident value _ _ => printIdent value
  | .list elem _ _ => "[" ++ printType elem ++ "]"
  | .tuple elems _ _ => "(" ++ joinSep ", " (printTypeMapped elems) ++ ")"
/-- `types.map(printType)`, as a mutually recursive helper. -/
def printTypeMapped : List Typ → List String
  | [] => []
  | t :: ts => printType t :: printTypeMapped ts
end

mutual
/-- `printExpr` (printer.ts): render an expression at an indentation level. -/
def printExpr : Expr → Nat → String
  | .empty _ _, _ => ""
  | .«let» name type rhs after _ _, indent =>
    let t := match type with
      | some ty => ": " ++ printType ty
      | none => ""
    "let " ++ name ++ t ++ " = " ++ printExpr rhs (indent + 1) ++ " in" ++
      linebreak indent ++ printExpr after indent
  | .block exprs _ _, indent =>
    let strs := printExprMapped exprs (indent + 1)
    if strs.length == 1 then "(" ++ strs.headD "" ++ ")"
    else
      -- sum of rendered lengths below 40 keeps the block on one line
      let shortExprs := (strs.map String.length).foldl (fun a b => a + b) 0 < 40
      -- `expr.exprs[exprs.length - 1]?.kind === "empty"`: the mapped array has
      -- the same length, so this asks whether the last child is an empty node
      let alreadyHasTrailingSpace := match exprs.getLast? with
        | some (.empty _ _) => true
        | _ => false
      if shortExprs then
        let trailingSpace := if alreadyHasTrailingSpace then "" else " "
        "( " ++ joinSep "; " strs ++ trailingSpace ++ ")"
      else
        "(" ++ linebreak (indent + 1) ++
          joinSep (";" ++ linebreak (indent + 1)) strs ++ linebreak indent ++ ")"
  | .literal (.str value) _ _, _ => "\"" ++ value ++ "\""
  | .literal (.int value) _ _, _ => toString value
  | .ident value _ _, _ => printIdent value
  | .binary binaryKind lhs rhs _ _, indent =>
    printExpr lhs indent ++ " " ++ binaryKind.str ++ " " ++ printExpr rhs indent
  | .unary unaryKind rhs _ _, indent => unaryKind.str ++ printExpr rhs indent
  | .call lhs args _ _, indent =>
    let strs := printExprMapped args (indent + 1)
    let shortArgs := (strs.map String.length).foldl (fun a b => a + b) 0 < 40
    if shortArgs then
      printExpr lhs indent ++ "(" ++ joinSep ", " strs ++ ")"
    else
      printExpr lhs indent ++ "(" ++ linebreak (indent + 1) ++
        joinSep (linebreak (indent + 1)) strs ++ linebreak indent ++ ")"
  | .«if» cond thenBranch elseBranch _ _, indent =>
    let elsePart := match elseBranch with
      | some e => " else " ++ printExpr e (indent + 1)
      | none => ""
    "if " ++ printExpr cond (indent + 1) ++ " then " ++
      printExpr thenBranch (indent + 1) ++ elsePart
/-- `exprs.map(e => printExpr(e, indent))`, as a mutually recursive helper. -/
def printExprMapped : List Expr → Nat → List String
  | [], _ => []
  | e :: es, indent => printExpr e indent :: printExprMapped es indent
end

/-- `printFunction` (printer.ts). -/
def printFunction (func : FunctionDef) : String :=
  let args := joinSep ", " (func.args.map fun a => a.name ++ ": " ++ printType a.type)
  let ret := match func.returnType with
    | some t => ": " ++ printType t
    | none => ""
  "function " ++ func.name ++ "(" ++ args ++ ")" ++ ret ++ " = " ++
    printExpr func.body 0

/-- `printItem` (printer.ts): the single item kind prints its function. -/
def printItem (item : Item) : String := printFunction item.node

/-- `printAst` (printer.ts): items joined by newlines. -/
def printAst (ast : Ast) : String := joinSep "\n" (ast.map printItem)

/-! ## The Resolver, modelled from the spec -/

/-- Modelled from the spec: the Resolver pass (spec section 4.2) is not among
the provided sources; this models its local-stack lookup.  "search local stack
innermost-first (yields a local resolution with index = stack distance)": the
stack has the innermost binding first, and the index of the first occurrence of
the name is the resolution index. -/
def lookupLocal : List String → String → Option Nat
  | [], _ => none
  | n :: rest, name =>
    if n = name then some 0 else (lookupLocal rest name).map fun i => i + 1

/-- Modelled from the spec: resolution of one identifier (spec section 4.2).
"On each identifier, search local stack innermost-first (yields a local
resolution with index = stack distance), else the item table (yields an item
resolution), else the builtin set (yields a builtin resolution), else fail." -/
def resolveIdent (items : List (String × Nat)) (builtins : List String)
    (stack : List String) (ident : Identifier) : Except String Identifier :=
  match lookupLocal stack ident.name with
  | some i => Except.ok (Identifier.mk ident.name ident.span (some (.«local» i)))
  | none =>
    match List.lookup ident.name items with
    | some idx => Except.ok (Identifier.mk ident.name ident.span (some (.item idx)))
    | none =>
      if builtins.contains ident.name then
        Except.ok (Identifier.mk ident.name ident.span (some (.builtin ident.name)))
      else Except.error ("unresolved name: " ++ ident.name)

mutual
/-- Modelled from the spec: the Resolver's expression walk (spec section 4.2).
"maintain a stack of local-binding names, pushed on entering a `let`'s
continuation scope (the RHS of the `let` is resolved in the *outer* scope, not
including the new name) and popped on leaving it"; every other node resolves
its children in the unchanged scope, and identifier occurrences are resolved by
`resolveIdent`. -/
def resolveExpr (items : List (String × Nat)) (builtins : List String)
    (stack : List String) : Expr → Except String Expr
  | .empty span ty => Except.ok (.empty span ty)
  | .«let» name type rhs after span ty => do
    let rhs' ← resolveExpr items builtins stack rhs
    let after' ← resolveExpr items builtins (name :: stack) after
    Except.ok (.«let» name type rhs' after' span ty)
  | .block exprs span ty => do
    let exprs' ← resolveExprList items builtins stack exprs
    Except.ok (.block exprs' span ty)
  | .literal value span ty => Except.ok (.literal value span ty)
  | .ident value span ty => do
    let value' ← resolveIdent items builtins stack value
    Except.ok (.ident value' span ty)
  | .binary binaryKind lhs rhs span ty => do
    let lhs' ← resolveExpr items builtins stack lhs
    let rhs' ← resolveExpr items builtins stack rhs
    Except.ok (.binary binaryKind lhs' rhs' span ty)
  | .unary unaryKind rhs span ty => do
    let rhs' ← resolveExpr items builtins stack rhs
    Except.ok (.unary unaryKind rhs' span ty)
  | .call lhs args span ty => do
    let lhs' ← resolveExpr items builtins stack lhs
    let args' ← resolveExprList items builtins stack args
    Except.ok (.call lhs' args' span ty)
  | .«if» cond thenBranch elseBranch span ty => do
    let cond' ← resolveExpr items builtins stack cond
    let then' ← resolveExpr items builtins stack thenBranch
    match elseBranch with
    | none => Except.ok (.«if» cond' then' none span ty)
    | some e => do
      let e' ← resolveExpr items builtins stack e
      Except.ok (.«if» cond' then' (some e') span ty)
/-- Modelled from the spec: resolve a list of sibling expressions in the same
scope. -/
def resolveExprList (items : List (String × Nat)) (builtins : List String)
    (stack : List String) : List Expr → Except String (List Expr)
  | [] => Except.ok []
  | e :: es => do
    let e' ← resolveExpr items builtins stack e
    let es' ← resolveExprList items builtins stack es
    Except.ok (e' :: es')
end

/-- The tree for `let a = 1 in let b = 2 in a` (spec section 8). -/
def letExampleA : Expr :=
  .«let» "a" none (.literal (.int 1) DUMMY_SPAN none)
    (.«let» "b" none (.literal (.int 2) DUMMY_SPAN none)
      (.ident (Identifier.mk "a" DUMMY_SPAN none) DUMMY_SPAN none)
      DUMMY_SPAN none)
    DUMMY_SPAN none

/-- `letExampleA` with the reference to `a` resolved to local index 1. -/
def letExampleAResolved : Expr :=
  .«let» "a" none (.literal (.int 1) DUMMY_SPAN none)
    (.«let» "b" none (.literal (.int 2) DUMMY_SPAN none)
      (.ident (Identifier.mk "a" DUMMY_SPAN (some (.«local» 1))) DUMMY_SPAN none)
      DUMMY_SPAN none)
    DUMMY_SPAN none

/-- The tree for `let a = 1 in let b = 2 in b` (spec section 8). -/
def letExampleB : Expr :=
  .«let» "a" none (.literal (.int 1) DUMMY_SPAN none)
    (.«let» "b" none (.literal (.int 2) DUMMY_SPAN none)
      (.ident (Identifier.mk "b" DUMMY_SPAN none) DUMMY_SPAN none)
      DUMMY_SPAN none)
    DUMMY_SPAN none

/-- `letExampleB` with the reference to `b` resolved to local index 0. -/
def letExampleBResolved : Expr :=
  .«let» "a" none (.literal (.int 1) DUMMY_SPAN none)
    (.«let» "b" none (.literal (.int 2) DUMMY_SPAN none)
      (.ident (Identifier.mk "b" DUMMY_SPAN (some (.«local» 0))) DUMMY_SPAN none)
      DUMMY_SPAN none)
    DUMMY_SPAN none

/-! ## Observers and predicates used by the theorems -/

/-- The span attached to an expression node. -/
def Expr.spanOf : Expr → Span
  | .empty span _ => span
  | .«let» _ _ _ _ span _ => span
  | .block _ span _ => span
  | .literal _ span _ => span
  | .ident _ span _ => span
  | .binary _ _ _ span _ => span
  | .unary _ _ span _ => span
  | .call _ _ span _ => span
  | .«if» _ _ _ span _ => span

/-- The semantic type annotation attached to an expression node. -/
def Expr.tyOf : Expr → Option Ty
  | .empty _ ty => ty
  | .«let» _ _ _ _ _ ty => ty
  | .block _ _ ty => ty
  | .literal _ _ ty => ty
  | .ident _ _ ty => ty
  | .binary _ _ _ _ ty => ty
  | .unary _ _ _ ty => ty
  | .call _ _ _ ty => ty
  | .«if» _ _ _ _ ty => ty

/-- The literal value of a literal node, `none` for every other kind. -/
def Expr.litValue : Expr → Option Literal
  | .literal value _ _ => some value
  | _ => none

/-- The operator of a binary node, `none` for every other kind. -/
def Expr.binaryKindOf : Expr → Option BinaryKind
  | .binary binaryKind _ _ _ _ => some binaryKind
  | _ => none

/-- The operator of a unary node, `none` for every other kind. -/
def Expr.unaryKindOf : Expr → Option UnaryKind
  | .unary unaryKind _ _ _ => some unaryKind
  | _ => none

/-- The bound name of a let node, `none` for every other kind. -/
def Expr.letNameOf : Expr → Option String
  | .«let» name _ _ _ _ _ => some name
  | _ => none

mutual
/-- No written-type node in this tree carries a semantic type annotation. -/
def typTyFree : Typ → Bool
  | .ident _ _ ty => ty.isNone
  | .list elem _ ty => ty.isNone && typTyFree elem
  | .tuple elems _ ty => ty.isNone && typTyFreeList elems
/-- `typTyFree` over a list of written types. -/
def typTyFreeList : List Typ → Bool
  | [] => true
  | t :: ts => typTyFree t && typTyFreeList ts
end

/-- `typTyFree` under an option. -/
def typOptTyFree : Option Typ → Bool
  | none => true
  | some t => typTyFree t

mutual
/-- No expression or written-type node in this tree carries a semantic type
annotation. -/
def exprTyFree : Expr → Bool
  | .empty _ ty => ty.isNone
  | .«let» _ type rhs after _ ty =>
    ty.isNone && typOptTyFree type && exprTyFree rhs && exprTyFree after
  | .block exprs _ ty => ty.isNone && exprTyFreeList exprs
  | .literal _ _ ty => ty.isNone
  | .ident _ _ ty => ty.isNone
  | .binary _ lhs rhs _ ty => ty.isNone && exprTyFree lhs && exprTyFree rhs
  | .unary _ rhs _ ty => ty.isNone && exprTyFree rhs
  | .call lhs args _ ty => ty.isNone && exprTyFree lhs && exprTyFreeList args
  | .«if» cond thenBranch elseBranch _ ty =>
    ty.isNone && exprTyFree cond && exprTyFree thenBranch &&
      exprOptTyFree elseBranch
/-- `exprTyFree` over a list of expressions. -/
def exprTyFreeList : List Expr → Bool
  | [] => true
  | e :: es => exprTyFree e && exprTyFreeList es
/-- `exprTyFree` under an option. -/
def exprOptTyFree : Option Expr → Bool
  | none => true
  | some e => exprTyFree e
end

/-- No node of the item carries a semantic type annotation. -/
def itemTyFree (item : Item) : Bool :=
  item.node.args.all (fun a => typTyFree a.type) && exprTyFree item.node.body &&
    typOptTyFree item.node.returnType

/-- No node of the program carries a semantic type annotation. -/
def astTyFree (ast : Ast) : Bool := ast.all itemTyFree

/-- Head-recursive description of the spans computed by the `lines` loop:
`splitSpans a i cs` is the list of line spans of a file whose current line
started at position `a`, whose characters before position `i` have been
consumed, and whose remaining characters are `cs`. -/
def splitSpans : Nat → Nat → List Char → List Span
  | a, i, [] => [⟨a, i⟩]
  | a, i, c :: cs =>
    if c = '\n' then ⟨a, i⟩ :: splitSpans (i + 1) (i + 1) cs
    else splitSpans a (i + 1) cs

/-! ## Helper lemmas -/

theorem printTyMapped_eq_map (ts : List Ty) : printTyMapped ts = ts.map printTy := by
  induction ts with
  | nil => rfl
  | cons t ts ih => simp [printTyMapped, ih]

/-- `tyIsUnit` holds exactly on the empty tuple. -/
theorem tyIsUnit_eq_true_iff (ty : Ty) : tyIsUnit ty = true ↔ ty = Ty.tuple [] := by
  cases ty with
  | tuple elems => cases elems <;> simp [tyIsUnit]
  | _ => simp [tyIsUnit]

/-! ## Claim theorems -/

/-- C2 (code bug evaluation): for each of the four arithmetic operators, which
are present in the recognized operator table with precedence class 0,
`binaryExprPrecedenceClass` nevertheless throws the invalid-operator error,
because the JavaScript test `!cls` is true for the number 0. -/
theorem binaryExprPrecedenceClass_arith_throws :
    (BinaryKind.add, 0) ∈ BINARY_KIND_PREC_CLASS ∧
    binaryExprPrecedenceClass BinaryKind.add =
      Except.error "Invalid binary kind: +" ∧
    binaryExprPrecedenceClass BinaryKind.sub =
      Except.error "Invalid binary kind: -" ∧
    binaryExprPrecedenceClass BinaryKind.mul =
      Except.error "Invalid binary kind: *" ∧
    binaryExprPrecedenceClass BinaryKind.div =
      Except.error "Invalid binary kind: /" :=
  ⟨by decide, rfl, rfl, rfl, rfl⟩

/-- C3 (counterexample): `&` and `|` are both in the logical typing class, yet
`binaryExprPrecedenceClass` assigns them the different precedence classes 1 and
2, so operators of one typing class do not share a precedence class. -/
theorem logical_kinds_prec_class_differs :
    BinaryKind.and ∈ LOGICAL_KINDS ∧ BinaryKind.or ∈ LOGICAL_KINDS ∧
    binaryExprPrecedenceClass BinaryKind.and = Except.ok 1 ∧
    binaryExprPrecedenceClass BinaryKind.or = Except.ok 2 ∧ (1 : Nat) ≠ 2 :=
  ⟨by decide, by decide, rfl, rfl, by decide⟩

/-- C3 (amended): only the arithmetic typing class shares one precedence class
(all of `+ - * /` map to class 0 in the table); the six comparison operators
and the two logical operators each carry their own distinct class (1 through
8, pairwise different), and the class values are natural numbers, hence
totally ordered by the usual order. -/
theorem arith_prec_class_shared_others_distinct :
    List.lookup BinaryKind.add BINARY_KIND_PREC_CLASS = some 0 ∧
    List.lookup BinaryKind.sub BINARY_KIND_PREC_CLASS = some 0 ∧
    List.lookup BinaryKind.mul BINARY_KIND_PREC_CLASS = some 0 ∧
    List.lookup BinaryKind.div BINARY_KIND_PREC_CLASS = some 0 ∧
    List.Pairwise (fun x y => x ≠ y)
      ((COMPARISON_KINDS ++ LOGICAL_KINDS).map fun k =>
        List.lookup k BINARY_KIND_PREC_CLASS) ∧
    (BINARY_KIND_PREC_CLASS.map fun p => p.2) = [0, 0, 0, 0, 1, 2, 3, 4, 5, 6, 7, 8] := by
  refine ⟨rfl, rfl, rfl, rfl, by decide, rfl⟩

/-- C4 (counterexample): a function type returning the unit type is not
rendered as `fn(params): return`; the return annotation is omitted. -/
theorem printTy_unit_return_counterexample :
    printTy (Ty.fn [Ty.int] (Ty.tuple [])) = "fn(Int)" ∧
    "fn(Int)" ≠ "fn(Int)" ++ ": " ++ printTy (Ty.tuple []) :=
  ⟨rfl, by decide⟩

/-- C4 (amended): `printTy` renders primitives as the capitalized names, list
types as the bracketed element type, tuple types as the parenthesized
comma-separated element types, type variables as `?index`, and function types
as `fn(params): return` when the return type is not the unit type (the empty
tuple) and as `fn(params)` with the return annotation omitted when it is. -/
theorem printTy_grammar :
    printTy Ty.string = "String" ∧
    printTy Ty.int = "Int" ∧
    printTy Ty.bool = "Bool" ∧
    (∀ elem, printTy (Ty.list elem) = "[" ++ printTy elem ++ "]") ∧
    (∀ elems, printTy (Ty.tuple elems) =
      "(" ++ joinSep ", " (elems.map printTy) ++ ")") ∧
    (∀ params returnTy, returnTy ≠ Ty.tuple [] →
      printTy (Ty.fn params returnTy) =
        ("fn(" ++ joinSep ", " (params.map printTy) ++ ")") ++
          (": " ++ printTy returnTy)) ∧
    (∀ params, printTy (Ty.fn params (Ty.tuple [])) =
      "fn(" ++ joinSep ", " (params.map printTy) ++ ")") ∧
    (∀ index, printTy (Ty.var index) = "?" ++ toString index) := by
  refine ⟨rfl, rfl, rfl, fun elem => rfl, fun elems => ?_, ?_, fun params => ?_, fun index => rfl⟩
  · simp [printTy, printTyMapped_eq_map]
  · intro params returnTy h
    have hunit : tyIsUnit returnTy = false := by
      rcases Bool.eq_false_or_eq_true (tyIsUnit returnTy) with ht | hf
      · exact absurd ((tyIsUnit_eq_true_iff returnTy).mp ht) h
      · exact hf
    simp [printTy, hunit, printTyMapped_eq_map]
  · simp [printTy, tyIsUnit, printTyMapped_eq_map, String.append_empty]

/-- C4 (witness): the non-unit function-type conjunct of `printTy_grammar`
applied at the concrete type `fn(Int): Bool`. -/
theorem printTy_grammar_witness :
    printTy (Ty.fn [Ty.int] Ty.bool) =
      ("fn(" ++ joinSep ", " ([Ty.int].map printTy) ++ ")") ++ (": " ++ printTy Ty.bool) :=
  printTy_grammar.2.2.2.2.2.1 [Ty.int] Ty.bool (by simp)

/-- C5: printing is deterministic; `printAst` is a pure function of the tree,
so two renderings of the same tree are the same string. -/
theorem printAst_deterministic (ast : Ast) : printAst ast = printAst ast := rfl

/-- C7: `printIdent` renders the name followed by `#index` for a local
resolution, `#G` and the index for an item resolution, `#B` for a builtin
resolution, and the bare name when the identifier carries no resolution. -/
theorem printIdent_spec :
    (∀ name span, printIdent (Identifier.mk name span none) = name) ∧
    (∀ name span index,
      printIdent (Identifier.mk name span (some (Resolution.«local» index))) =
        name ++ ("#" ++ toString index)) ∧
    (∀ name span index,
      printIdent (Identifier.mk name span (some (Resolution.item index))) =
        name ++ ("#G" ++ toString index)) ∧
    (∀ name span b,
      printIdent (Identifier.mk name span (some (Resolution.builtin b))) =
        name ++ "#B") :=
  ⟨fun name span => String.append_empty name,
   fun name span index => rfl, fun name span index => rfl, fun name span b => rfl⟩

/-- C8: the structural defaults `superFoldItem` and `superFoldExpr`, with any
folder, keep every non-tree field of the node: the item's span, id and
function name, and the expression's span, literal value, operator kinds and
let-bound name. -/
theorem superFold_preserves_non_tree_fields :
    (∀ folder item, (superFoldItem item folder).span = item.span ∧
      (superFoldItem item folder).id = item.id ∧
      (superFoldItem item folder).node.name = item.node.name) ∧
    (∀ folder e, (superFoldExpr e folder).spanOf = e.spanOf ∧
      (superFoldExpr e folder).litValue = e.litValue ∧
      (superFoldExpr e folder).binaryKindOf = e.binaryKindOf ∧
      (superFoldExpr e folder).unaryKindOf = e.unaryKindOf ∧
      (superFoldExpr e folder).letNameOf = e.letNameOf) :=
  ⟨fun folder item => ⟨rfl, rfl, rfl⟩,
   fun folder e => by cases e <;> exact ⟨rfl, rfl, rfl, rfl, rfl⟩⟩

/-- C9: the unit type is exactly the empty tuple: `tyIsUnit` is true for a
semantic type if and only if that type is a tuple with no elements, and `Ty`
has no separate unit variant. -/
theorem tyIsUnit_iff_empty_tuple (ty : Ty) :
    tyIsUnit ty = true ↔ ty = Ty.tuple [] :=
  tyIsUnit_eq_true_iff ty

/-- C9 (witness): the equivalence applied at the empty tuple itself. -/
theorem tyIsUnit_iff_witness : tyIsUnit (Ty.tuple []) = true :=
  (tyIsUnit_iff_empty_tuple (Ty.tuple [])).mpr rfl

mutual
/-- On a written type without semantic-type annotations, the default fold is
the identity. -/
theorem defaultFoldType_eq_self : ∀ t : Typ, typTyFree t = true → defaultFoldType t = t
  | .ident value span ty, h => by
    simp only [typTyFree, Option.isNone_iff_eq_none] at h
    subst h
    rfl
  | .list elem span ty, h => by
    simp only [typTyFree, Bool.and_eq_true, Option.isNone_iff_eq_none] at h
    obtain ⟨h1, h2⟩ := h
    subst h1
    simp [defaultFoldType, defaultFoldType_eq_self elem h2]
  | .tuple elems span ty, h => by
    simp only [typTyFree, Bool.and_eq_true, Option.isNone_iff_eq_none] at h
    obtain ⟨h1, h2⟩ := h
    subst h1
    simp [defaultFoldType, defaultFoldTypeList_eq_self elems h2]
/-- List version of `defaultFoldType_eq_self`. -/
theorem defaultFoldTypeList_eq_self :
    ∀ ts : List Typ, typTyFreeList ts = true → defaultFoldTypeList ts = ts
  | [], _ => rfl
  | t :: ts, h => by
    simp only [typTyFreeList, Bool.and_eq_true] at h
    simp [defaultFoldTypeList, defaultFoldType_eq_self t h.1,
      defaultFoldTypeList_eq_self ts h.2]
end

/-- Option version of `defaultFoldType_eq_self`. -/
theorem defaultFoldTypeOpt_eq_self (t : Option Typ) (h : typOptTyFree t = true) :
    t.map defaultFoldType = t := by
  cases t with
  | none => rfl
  | some t => simp [typOptTyFree] at h; simp [defaultFoldType_eq_self t h]

mutual
/-- On an expression without semantic-type annotations, the default fold is
the identity. -/
theorem defaultFoldExpr_eq_self : ∀ e : Expr, exprTyFree e = true → defaultFoldExpr e = e
  | .empty span ty, h => by
    simp only [exprTyFree, Option.isNone_iff_eq_none] at h
    subst h
    rfl
  | .«let» name type rhs after span ty, h => by
    simp only [exprTyFree, Bool.and_eq_true, Option.isNone_iff_eq_none] at h
    obtain ⟨⟨⟨h1, h2⟩, h3⟩, h4⟩ := h
    subst h1
    simp [defaultFoldExpr, defaultFoldTypeOpt_eq_self type h2,
      defaultFoldExpr_eq_self rhs h3, defaultFoldExpr_eq_self after h4]
  | .block exprs span ty, h => by
    simp only [exprTyFree, Bool.and_eq_true, Option.isNone_iff_eq_none] at h
    obtain ⟨h1, h2⟩ := h
    subst h1
    simp [defaultFoldExpr, defaultFoldExprList_eq_self exprs h2]
  | .literal value span ty, h => by
    simp only [exprTyFree, Option.isNone_iff_eq_none] at h
    subst h
    rfl
  | .ident value span ty, h => by
    simp only [exprTyFree, Option.isNone_iff_eq_none] at h
    subst h
    rfl
  | .binary binaryKind lhs rhs span ty, h => by
    simp only [exprTyFree, Bool.and_eq_true, Option.isNone_iff_eq_none] at h
    obtain ⟨⟨h1, h2⟩, h3⟩ := h
    subst h1
    simp [defaultFoldExpr, defaultFoldExpr_eq_self lhs h2,
      defaultFoldExpr_eq_self rhs h3]
  | .unary unaryKind rhs span ty, h => by
    simp only [exprTyFree, Bool.and_eq_true, Option.isNone_iff_eq_none] at h
    obtain ⟨h1, h2⟩ := h
    subst h1
    simp [defaultFoldExpr, defaultFoldExpr_eq_self rhs h2]
  | .call lhs args span ty, h => by
    simp only [exprTyFree, Bool.and_eq_true, Option.isNone_iff_eq_none] at h
    obtain ⟨⟨h1, h2⟩, h3⟩ := h
    subst h1
    simp [defaultFoldExpr, defaultFoldExpr_eq_self lhs h2,
      defaultFoldExprList_eq_self args h3]
  | .«if» cond thenBranch elseBranch span ty, h => by
    simp only [exprTyFree, Bool.and_eq_true, Option.isNone_iff_eq_none] at h
    obtain ⟨⟨⟨h1, h2⟩, h3⟩, h4⟩ := h
    subst h1
    simp [defaultFoldExpr, defaultFoldExpr_eq_self cond h2,
      defaultFoldExpr_eq_self thenBranch h3, defaultFoldExprOpt_eq_self elseBranch h4]
/-- List version of `defaultFoldExpr_eq_self`. -/
theorem defaultFoldExprList_eq_self :
    ∀ es : List Expr, exprTyFreeList es = true → defaultFoldExprList es = es
  | [], _ => rfl
  | e :: es, h => by
    simp only [exprTyFreeList, Bool.and_eq_true] at h
    simp [defaultFoldExprList, defaultFoldExpr_eq_self e h.1,
      defaultFoldExprList_eq_self es h.2]
/-- Option version of `defaultFoldExpr_eq_self`. -/
theorem defaultFoldExprOpt_eq_self :
    ∀ e : Option Expr, exprOptTyFree e = true → defaultFoldExprOpt e = e
  | none, _ => rfl
  | some e, h => by
    simp only [exprOptTyFree] at h
    simp [defaultFoldExprOpt, defaultFoldExpr_eq_self e h]
end

/-- Rebuilding the argument list of a function item is the identity when the
written argument types carry no semantic-type annotations. -/
theorem foldArgs_eq_self :
    ∀ args : List FunctionArg, args.all (fun a => typTyFree a.type) = true →
      (args.map fun a => FunctionArg.mk a.name (defaultFoldType a.type) a.span) = args
  | [], _ => rfl
  | a :: as, h => by
    simp only [List.all_cons, Bool.and_eq_true] at h
    obtain ⟨n, t, s⟩ := a
    simp only [List.map_cons]
    rw [foldArgs_eq_self as h.2]
    simp [defaultFoldType_eq_self t h.1]

/-- On an item without semantic-type annotations, the default fold is the
identity. -/
theorem defaultFoldItem_eq_self (item : Item) (h : itemTyFree item = true) :
    defaultFoldItem item = item := by
  obtain ⟨⟨name, args, body, returnType⟩, span, id⟩ := item
  simp only [itemTyFree, Bool.and_eq_true] at h
  obtain ⟨⟨hargs, hbody⟩, hret⟩ := h
  simp only [defaultFoldItem]
  rw [foldArgs_eq_self args hargs, defaultFoldExpr_eq_self body hbody,
    defaultFoldTypeOpt_eq_self returnType hret]

/-- C1 (amended): folding with `DEFAULT_FOLDER` is the identity on every tree
in which no expression or written-type node carries a semantic-type
annotation; on annotated nodes the reconstruction drops the `ty` field, so the
identity does not extend to annotated trees (see the counterexample). -/
theorem fold_ast_default_identity (ast : Ast) (h : astTyFree ast = true) :
    fold_ast ast DEFAULT_FOLDER = ast := by
  induction ast with
  | nil => rfl
  | cons item items ih =>
    simp only [astTyFree, List.all_cons, Bool.and_eq_true] at h
    have h2 : fold_ast items DEFAULT_FOLDER = items := ih h.2
    simp only [fold_ast, List.map_cons] at h2 ⊢
    rw [h2]
    show defaultFoldItem item :: items = item :: items
    rw [defaultFoldItem_eq_self item h.1]

/-- A one-item program whose function body carries a semantic-type
annotation. -/
def tyAnnotatedAst : Ast :=
  [Item.mk (FunctionDef.mk "f" [] (.empty DUMMY_SPAN (some Ty.int)) none) DUMMY_SPAN 0]

/-- A one-item program without semantic-type annotations. -/
def tyFreeAst : Ast :=
  [Item.mk (FunctionDef.mk "f" [] (.empty DUMMY_SPAN none) none) DUMMY_SPAN 0]

/-- C1 (counterexample): on a tree whose body expression carries a
semantic-type annotation, folding with `DEFAULT_FOLDER` is not the identity —
the reconstruction drops the annotation. -/
theorem fold_ast_default_drops_ty_counterexample :
    fold_ast tyAnnotatedAst DEFAULT_FOLDER ≠ tyAnnotatedAst := by
  intro h
  have h2 := congrArg (fun l : Ast => l.map fun it => it.node.body.tyOf) h
  simp [tyAnnotatedAst, fold_ast, DEFAULT_FOLDER, defaultFoldItem, defaultFoldExpr,
    Expr.tyOf] at h2

/-- C1 (witness): the identity theorem applied to a concrete annotation-free
program. -/
theorem fold_ast_default_identity_witness :
    astTyFree tyFreeAst = true ∧ fold_ast tyFreeAst DEFAULT_FOLDER = tyFreeAst :=
  ⟨rfl, fold_ast_default_identity tyFreeAst rfl⟩

/-- C6: local resolutions are De-Bruijn-style indices counted innermost-first
(spec-modelled resolver, since the Resolver source is not provided): resolving
`let a = 1 in let b = 2 in a` attaches local index 1 to the use of `a`, and
resolving `let a = 1 in let b = 2 in b` attaches local index 0 to the use of
`b`; in general, when the local lookup returns index `i`, the `i` bindings
between the use and its binder all have other names and the binding at
distance `i` is the binder. -/
theorem resolve_de_bruijn_examples :
    resolveExpr [] [] [] letExampleA = Except.ok letExampleAResolved ∧
    resolveExpr [] [] [] letExampleB = Except.ok letExampleBResolved ∧
    (∀ stack name i, lookupLocal stack name = some i →
      ((stack.take i).all fun n => n != name) = true ∧ stack[i]? = some name) := by
  refine ⟨rfl, rfl, ?_⟩
  intro stack
  induction stack with
  | nil => intro name i h; simp [lookupLocal] at h
  | cons n rest ih =>
    intro name i h
    by_cases hn : n = name
    · subst hn
      simp [lookupLocal] at h
      subst h
      simp
    · simp only [lookupLocal, if_neg hn, Option.map_eq_some'] at h
      obtain ⟨j, hj, hji⟩ := h
      subst hji
      obtain ⟨h1, h2⟩ := ih name j hj
      refine ⟨?_, by simpa using h2⟩
      simp only [List.take_succ_cons, List.all_cons, h1, Bool.and_true]
      simp [bne_iff_ne, hn]

/-- C6 (witness): the general part of `resolve_de_bruijn_examples` applied to
the concrete stack of `let a = 1 in let b = 2 in a` at the use of `a`. -/
theorem resolve_de_bruijn_witness :
    ((["b", "a"].take 1).all fun n => n != "a") = true ∧ ["b", "a"][1]? = some "a" :=
  resolve_de_bruijn_examples.2.2 ["b", "a"] "a" 1 rfl

/-! ## Lemmas about `lines` -/

theorem bumpLast_append (xs : List Span) (x : Span) :
    bumpLast (xs ++ [x]) = xs ++ [⟨x.start, x.«end» + 1⟩] := by
  induction xs with
  | nil => rfl
  | cons y ys ih =>
    cases ys with
    | nil => rfl
    | cons z zs =>
      simp only [List.cons_append, bumpLast, List.append_eq] at ih ⊢
      rw [ih]

theorem linesGo_eq_splitSpans (cs : List Char) :
    ∀ i (front : List Span) a,
      linesGo cs i (front ++ [⟨a, i⟩]) = front ++ splitSpans a i cs := by
  induction cs with
  | nil => intro i front a; rfl
  | cons c cs ih =>
    intro i front a
    by_cases hc : c = '\n'
    · rw [show linesGo (c :: cs) i (front ++ [⟨a, i⟩]) =
          linesGo cs (i + 1) ((front ++ [Span.mk a i]) ++ [Span.mk (i + 1) (i + 1)]) from by
        simp [linesGo, hc]]
      rw [ih (i + 1) (front ++ [Span.mk a i]) (i + 1)]
      simp [splitSpans, hc]
    · rw [show linesGo (c :: cs) i (front ++ [⟨a, i⟩]) =
          linesGo cs (i + 1) (bumpLast (front ++ [⟨a, i⟩])) from by
        simp [linesGo, hc]]
      rw [bumpLast_append]
      rw [show (⟨(⟨a, i⟩ : Span).start, (⟨a, i⟩ : Span).«end» + 1⟩ : Span) = ⟨a, i + 1⟩ from rfl]
      rw [ih (i + 1) front a]
      simp [splitSpans, hc]

theorem lines_eq_splitSpans (s : String) : lines s = splitSpans 0 0 s.data := by
  have h := linesGo_eq_splitSpans s.data 0 [] 0
  simpa [lines] using h

theorem splitSpans_ne_nil (cs : List Char) : ∀ a i, splitSpans a i cs ≠ [] := by
  induction cs with
  | nil => intro a i; simp [splitSpans]
  | cons c cs ih =>
    intro a i
    by_cases hc : c = '\n'
    · simp [splitSpans, hc]
    · simp only [splitSpans, if_neg hc]
      exact ih a (i + 1)

theorem splitSpans_length (cs : List Char) :
    ∀ a i, (splitSpans a i cs).length = cs.count '\n' + 1 := by
  induction cs with
  | nil => intro a i; simp [splitSpans]
  | cons c cs ih =>
    intro a i
    by_cases hc : c = '\n'
    · simp [splitSpans, hc, List.count_cons, ih (i + 1) (i + 1)]
    · simp [splitSpans, hc, List.count_cons, ih a (i + 1)]

theorem splitSpans_head_start (cs : List Char) :
    ∀ a i, ∃ sp, (splitSpans a i cs).head? = some sp ∧ sp.start = a := by
  induction cs with
  | nil => intro a i; exact ⟨⟨a, i⟩, rfl, rfl⟩
  | cons c cs ih =>
    intro a i
    by_cases hc : c = '\n'
    · exact ⟨⟨a, i⟩, by simp [splitSpans, hc], rfl⟩
    · simp only [splitSpans, if_neg hc]
      exact ih a (i + 1)

theorem splitSpans_chain (cs : List Char) :
    ∀ a i, List.Chain' (fun x y => y.start = x.«end» + 1) (splitSpans a i cs) := by
  induction cs with
  | nil => intro a i; simp [splitSpans]
  | cons c cs ih =>
    intro a i
    by_cases hc : c = '\n'
    · simp only [splitSpans, if_pos hc]
      rw [List.chain'_cons']
      refine ⟨?_, ih (i + 1) (i + 1)⟩
      intro y hy
      obtain ⟨sp, hsp, hstart⟩ := splitSpans_head_start cs (i + 1) (i + 1)
      rw [hsp] at hy
      simp only [Option.mem_def, Option.some.injEq] at hy
      subst hy
      simpa using hstart
    · simp only [splitSpans, if_neg hc]
      exact ih a (i + 1)

theorem splitSpans_start_le (cs : List Char) :
    ∀ a i, a ≤ i → ∀ sp ∈ splitSpans a i cs, sp.start ≤ sp.«end» := by
  induction cs with
  | nil =>
    intro a i h sp hsp
    simp [splitSpans] at hsp
    subst hsp
    exact h
  | cons c cs ih =>
    intro a i h sp hsp
    by_cases hc : c = '\n'
    · simp only [splitSpans, if_pos hc, List.mem_cons] at hsp
      rcases hsp with rfl | hsp
      · exact h
      · exact ih (i + 1) (i + 1) (Nat.le_refl _) sp hsp
    · simp only [splitSpans, if_neg hc] at hsp
      exact ih a (i + 1) (Nat.le_succ_of_le h) sp hsp

theorem drop_cons_head (full : List Char) (i : Nat) (c : Char) (cs : List Char)
    (h : full.drop i = c :: cs) : full[i]? = some c ∧ full.drop (i + 1) = cs := by
  constructor
  · have h0 : (full.drop i)[0]? = some c := by rw [h]; simp
    rw [List.getElem?_drop] at h0
    simpa using h0
  · have h1 : List.drop 1 (List.drop i full) = List.drop (i + 1) full := by
      rw [List.drop_drop, Nat.add_comm]
    rw [← h1, h]
    rfl

theorem splitSpans_content (cs : List Char) :
    ∀ a i (full : List Char), full.drop i = cs →
      (∀ j, a ≤ j → j < i → ∃ ch, full[j]? = some ch ∧ ch ≠ '\n') →
      ∀ sp ∈ splitSpans a i cs, ∀ j, sp.start ≤ j → j < sp.«end» →
        ∃ ch, full[j]? = some ch ∧ ch ≠ '\n' := by
  induction cs with
  | nil =>
    intro a i full hdrop hpre sp hsp j hj1 hj2
    simp [splitSpans] at hsp
    subst hsp
    exact hpre j hj1 hj2
  | cons c cs ih =>
    intro a i full hdrop hpre sp hsp j hj1 hj2
    obtain ⟨hget, hdrop2⟩ := drop_cons_head full i c cs hdrop
    by_cases hc : c = '\n'
    · simp only [splitSpans, if_pos hc, List.mem_cons] at hsp
      rcases hsp with rfl | hsp
      · exact hpre j hj1 hj2
      · refine ih (i + 1) (i + 1) full hdrop2 ?_ sp hsp j hj1 hj2
        intro j2 h1 h2
        exact absurd h2 (Nat.not_lt.mpr h1)
    · simp only [splitSpans, if_neg hc] at hsp
      refine ih a (i + 1) full hdrop2 ?_ sp hsp j hj1 hj2
      intro j2 h1 h2
      rcases Nat.lt_or_ge j2 i with hlt | hge
      · exact hpre j2 h1 hlt
      · have hji : j2 = i := Nat.le_antisymm (Nat.lt_succ_iff.mp h2) hge
        subst hji
        exact ⟨c, hget, hc⟩

theorem splitSpans_terminators (cs : List Char) :
    ∀ a i (full : List Char), full.drop i = cs →
      ∀ sp ∈ (splitSpans a i cs).dropLast, full[sp.«end»]? = some '\n' := by
  induction cs with
  | nil =>
    intro a i full hdrop sp hsp
    simp [splitSpans] at hsp
  | cons c cs ih =>
    intro a i full hdrop sp hsp
    obtain ⟨hget, hdrop2⟩ := drop_cons_head full i c cs hdrop
    by_cases hc : c = '\n'
    · rw [show splitSpans a i (c :: cs) = ⟨a, i⟩ :: splitSpans (i + 1) (i + 1) cs from by
        simp [splitSpans, hc]] at hsp
      rw [List.dropLast_cons_of_ne_nil (splitSpans_ne_nil cs (i + 1) (i + 1))] at hsp
      rcases List.mem_cons.mp hsp with rfl | hsp2
      · subst hc
        simpa using hget
      · exact ih (i + 1) (i + 1) full hdrop2 sp hsp2
    · simp only [splitSpans, if_neg hc] at hsp
      exact ih a (i + 1) full hdrop2 sp hsp

theorem splitSpans_last_end (cs : List Char) :
    ∀ a i, ∃ sp, (splitSpans a i cs).getLast? = some sp ∧ sp.«end» = i + cs.length := by
  induction cs with
  | nil => intro a i; exact ⟨⟨a, i⟩, by simp [splitSpans], rfl⟩
  | cons c cs ih =>
    intro a i
    by_cases hc : c = '\n'
    · obtain ⟨sp, hsp, hend⟩ := ih (i + 1) (i + 1)
      refine ⟨sp, ?_, by simp only [List.length_cons, hend]; omega⟩
      rw [show splitSpans a i (c :: cs) = ⟨a, i⟩ :: splitSpans (i + 1) (i + 1) cs from by
        simp [splitSpans, hc]]
      cases htail : splitSpans (i + 1) (i + 1) cs with
      | nil => exact absurd htail (splitSpans_ne_nil cs (i + 1) (i + 1))
      | cons z zs =>
        rw [htail] at hsp
        rw [List.getLast?_cons_cons]
        exact hsp
    · obtain ⟨sp, hsp, hend⟩ := ih a (i + 1)
      exact ⟨sp, by simpa [splitSpans, hc] using hsp, by
        simp only [List.length_cons, hend]; omega⟩

theorem splitSpans_cover (cs : List Char) :
    ∀ a i (full : List Char), full.drop i = cs → ∀ j, a ≤ j → j < i + cs.length →
      full[j]? ≠ some '\n' →
      ∃ sp, sp ∈ splitSpans a i cs ∧ sp.start ≤ j ∧ j < sp.«end» := by
  induction cs with
  | nil =>
    intro a i full hdrop j hj1 hj2 hnl
    exact ⟨⟨a, i⟩, by simp [splitSpans], hj1, by simpa using hj2⟩
  | cons c cs ih =>
    intro a i full hdrop j hj1 hj2 hnl
    obtain ⟨hget, hdrop2⟩ := drop_cons_head full i c cs hdrop
    by_cases hc : c = '\n'
    · rcases Nat.lt_trichotomy j i with hlt | heq | hgt
      · exact ⟨⟨a, i⟩, by simp [splitSpans, hc], hj1, hlt⟩
      · subst heq
        subst hc
        exact absurd hget hnl
      · obtain ⟨sp, hmem, hc1, hc2⟩ :=
          ih (i + 1) (i + 1) full hdrop2 j hgt (by simp at hj2 ⊢; omega) hnl
        refine ⟨sp, ?_, hc1, hc2⟩
        simp only [splitSpans, if_pos hc, List.mem_cons]
        exact Or.inr hmem
    · obtain ⟨sp, hmem, hc1, hc2⟩ :=
        ih a (i + 1) full hdrop2 j hj1 (by simp at hj2 ⊢; omega) hnl
      refine ⟨sp, ?_, hc1, hc2⟩
      simpa [splitSpans, hc] using hmem

/-- A chain of adjacent spans with `start ≤ end` is strictly ordered:
every earlier span ends before every later one starts. -/
theorem chain_le_pairwise (L : List Span)
    (hchain : List.Chain' (fun x y => y.start = x.«end» + 1) L)
    (hle : ∀ sp ∈ L, sp.start ≤ sp.«end») :
    List.Pairwise (fun x y => x.«end» < y.start) L := by
  induction L with
  | nil => simp
  | cons x rest ih =>
    rw [List.chain'_cons'] at hchain
    obtain ⟨hhead, htail⟩ := hchain
    have hp := ih htail fun sp hsp => hle sp (List.mem_cons_of_mem x hsp)
    rw [List.pairwise_cons]
    refine ⟨?_, hp⟩
    intro y hy
    cases rest with
    | nil => cases hy
    | cons z rs =>
      have hz : z.start = x.«end» + 1 := hhead z rfl
      rcases List.mem_cons.mp hy with rfl | hy2
      · omega
      · have h1 : z.«end» < y.start := (List.pairwise_cons.mp hp).1 y hy2
        have h2 : z.start ≤ z.«end» := hle z (by simp)
        omega

/-- C10: `lines` returns exactly one span per source line: there are one plus
the number of newline characters many spans; consecutive spans are adjacent
(the next starts one past the previous end, where the newline sits) and each
has `start ≤ end`; the first span starts at 0 and the last ends at the input
length; within every span all characters exist and are not newlines, and each
non-final span's end position holds the terminating newline it excludes; and
every non-newline character position of the input lies in exactly one span. -/
theorem lines_spans_spec (s : String) :
    (lines s).length = s.data.count '\n' + 1 ∧
    List.Chain' (fun x y => y.start = x.«end» + 1) (lines s) ∧
    (∀ sp ∈ lines s, sp.start ≤ sp.«end») ∧
    (∃ sp, (lines s).head? = some sp ∧ sp.start = 0) ∧
    (∃ sp, (lines s).getLast? = some sp ∧ sp.«end» = s.data.length) ∧
    (∀ sp ∈ lines s, ∀ j, sp.start ≤ j → j < sp.«end» →
      ∃ ch, s.data[j]? = some ch ∧ ch ≠ '\n') ∧
    (∀ sp ∈ (lines s).dropLast, s.data[sp.«end»]? = some '\n') ∧
    (∀ j, j < s.data.length → s.data[j]? ≠ some '\n' →
      ∃! sp, sp ∈ lines s ∧ sp.start ≤ j ∧ j < sp.«end») := by
  rw [lines_eq_splitSpans]
  refine ⟨splitSpans_length s.data 0 0, splitSpans_chain s.data 0 0,
    splitSpans_start_le s.data 0 0 (Nat.le_refl 0), splitSpans_head_start s.data 0 0,
    ?_, ?_, ?_, ?_⟩
  · obtain ⟨sp, hsp, hend⟩ := splitSpans_last_end s.data 0 0
    exact ⟨sp, hsp, by omega⟩
  · exact splitSpans_content s.data 0 0 s.data rfl
      (fun j h1 h2 => absurd h2 (Nat.not_lt_zero j))
  · exact splitSpans_terminators s.data 0 0 s.data rfl
  · intro j hj hnl
    obtain ⟨sp, hmem, hc1, hc2⟩ :=
      splitSpans_cover s.data 0 0 s.data rfl j (Nat.zero_le j) (by omega) hnl
    have hpw := chain_le_pairwise _ (splitSpans_chain s.data 0 0)
      (splitSpans_start_le s.data 0 0 (Nat.le_refl 0))
    have hpw2 : List.Pairwise (fun x y => x.«end» < y.start ∨ y.«end» < x.start)
        (splitSpans 0 0 s.data) := hpw.imp fun h => Or.inl h
    refine ⟨sp, ⟨hmem, hc1, hc2⟩, ?_⟩
    intro sp2 hsp2
    obtain ⟨hmem2, hd1, hd2⟩ := hsp2
    by_cases heq : sp2 = sp
    · exact heq
    · have hsym : Symmetric (fun x y : Span => x.«end» < y.start ∨ y.«end» < x.start) :=
        fun x y h => h.elim Or.inr Or.inl
      rcases List.Pairwise.forall hsym hpw2 hmem2 hmem heq with h | h
      · omega
      · omega

/-- C10 (witness): the properties of `lines_spans_spec` instantiated on the
concrete input `"ab\nc"`, whose spans are `[0, 2)` and `[3, 4)`. -/
theorem lines_spans_spec_witness :
    (lines "ab\nc").length = 2 ∧
    (∃ ch, ("ab\nc" : String).data[1]? = some ch ∧ ch ≠ '\n') ∧
    ("ab\nc" : String).data[(Span.mk 0 2).«end»]? = some '\n' ∧
    (∃! sp, sp ∈ lines "ab\nc" ∧ sp.start ≤ 3 ∧ 3 < sp.«end») := by
  have h := lines_spans_spec "ab\nc"
  refine ⟨?_, ?_, ?_, ?_⟩
  · rw [h.1]; rfl
  · exact h.2.2.2.2.2.1 (Span.mk 0 2) (by decide) 1 (by decide) (by decide)
  · exact h.2.2.2.2.2.2.1 (Span.mk 0 2) (by decide)
  · exact h.2.2.2.2.2.2.2 3 (by decide) (by decide)
